import Mathlib

/-!
Verification of the data-preparation pipeline of the monthly-revenue
dashboard (`dsd.py`).  The pipeline (source lines 69–121) normalizes raw
column names via a synonym table, checks for the four required columns,
parses the period column with coercion of failures, sorts by parsed
period, derives delta / cumulative-revenue / period-label columns, and
computes KPI aggregates.

Embedding notes:
* A pandas `DataFrame` is a rectangular table: a list of column names and
  a list of rows, each row a list of cells aligned with the columns.
* Numeric cells are exact integers (`Int`): the revenue fields are whole
  currency amounts, and the pipeline performs only ring operations on
  them; the one fractional quantity, the mean growth rate, is stated
  exactly over `ℚ`.  `Cell.na` models NaN/NaT; unparsable or non-numeric
  data propagates as `Cell.na`, matching pandas NaN propagation.
* `pd.to_datetime(..., errors="coerce")` is modelled as a parser for the
  canonical `YYYY-MM` form (the input contract of the spec); failures
  become `Cell.na`, the model of `NaT`.
* `sort_values` is modelled as a sort that is ascending in the parsed
  period with unparsable periods placed last (`na_position="last"`).
-/

/-- A cell of a table: a raw string, an exact numeric value, a parsed
calendar month (`year * 12 + (month - 1)`), or a missing value (NaN/NaT). -/
inductive Cell where
  | str (s : String)
  | num (q : Int)
  | date (m : Nat)
  | na
deriving DecidableEq, Repr

/-- A rectangular table: column names plus rows of cells. -/
structure DataFrame where
  cols : List String
  rows : List (List Cell)
deriving DecidableEq, Repr

/-- Well-formedness: every row has exactly one cell per column. -/
def WF (df : DataFrame) : Prop :=
  ∀ r ∈ df.rows, r.length = df.cols.length

instance (df : DataFrame) : Decidable (WF df) := by
  unfold WF; infer_instance

/-- Index of the first element satisfying `p` (the model of looking a
column up by name in a pandas frame). -/
def firstIdxWhere (p : α → Bool) : List α → Option Nat
  | [] => none
  | a :: l => if p a then some 0 else (firstIdxWhere p l).map (· + 1)

/-- Position of the (first) column named `name`. -/
def colIdx (df : DataFrame) (name : String) : Option Nat :=
  firstIdxWhere (fun c => c == name) df.cols

/-- `df[name]` as a list of cells (empty when the column is absent). -/
def getCol (df : DataFrame) (name : String) : List Cell :=
  match colIdx df name with
  | some i => df.rows.map (fun r => r.getD i Cell.na)
  | none => []

/-- `df[name] = vals`: replace the column in place when it exists,
append it otherwise (pandas column assignment). -/
def setCol (df : DataFrame) (name : String) (vals : List Cell) : DataFrame :=
  match colIdx df name with
  | some i => ⟨df.cols, (df.rows.zip vals).map (fun rv => rv.1.set i rv.2)⟩
  | none => ⟨df.cols ++ [name], (df.rows.zip vals).map (fun rv => rv.1 ++ [rv.2])⟩

/-- Model of Python `str.strip()`: drop whitespace from both ends
(structural implementation over the character list). -/
def pyStrip (s : String) : String :=
  ⟨(((s.data.dropWhile Char.isWhitespace).reverse).dropWhile Char.isWhitespace).reverse⟩

/-- The synonym table `colmap` of the source: each canonical column name
with the raw spellings accepted for it. -/
def colmap : List (String × List String) :=
  [("월", ["월", "month", "Month"]),
   ("매출액", ["매출액", "revenue", "Revenue"]),
   ("전년동월", ["전년동월", "last_year", "PY"]),
   ("증감률", ["증감률", "yoy", "YoY"])]

/-- The `rename_dict` loop of the source: for each canonical field scan
the raw columns in order and record the first whose trimmed name is in
the synonym list (`break` after the first hit). -/
def buildRenameDict (cols : List String) : List (String × String) :=
  colmap.filterMap (fun p =>
    (cols.find? (fun c => p.2.contains (pyStrip c))).map (fun c => (c, p.1)))

/-- The name a raw column ends up with after `df.rename(columns=rename_dict)`. -/
def renameMap (cols : List String) (c : String) : String :=
  ((buildRenameDict cols).lookup c).getD c

/-- `df = df.rename(columns=rename_dict)`: only column names change. -/
def normalizeColumns (df : DataFrame) : DataFrame :=
  ⟨df.cols.map (renameMap df.cols), df.rows⟩

/-- The `required` list of the source. -/
def required : List String := ["월", "매출액", "전년동월", "증감률"]

/-- `missing = [c for c in required if c not in df.columns]`. -/
def missingOf (cols : List String) : List String :=
  required.filter (fun r => !(cols.contains r))

/-- Model of `pd.to_datetime(_, errors="coerce")` restricted to the
`YYYY-MM` input contract: a four-digit year, a dash and a two-digit
month in 1..12 parse to a month number; anything else fails. -/
def parseYM (s : String) : Option Nat :=
  match s.data with
  | [y1, y2, y3, y4, dash, m1, m2] =>
    if y1.isDigit ∧ y2.isDigit ∧ y3.isDigit ∧ y4.isDigit ∧ dash = Char.ofNat 45
        ∧ m1.isDigit ∧ m2.isDigit then
      let yn := (y1.toNat - 48) * 1000 + (y2.toNat - 48) * 100
        + (y3.toNat - 48) * 10 + (y4.toNat - 48)
      let mn := (m1.toNat - 48) * 10 + (m2.toNat - 48)
      if 1 ≤ mn ∧ mn ≤ 12 then some (yn * 12 + (mn - 1)) else none
    else none
  | _ => none

/-- Coercing period parse of one cell: parse failures become `na` (NaT). -/
def parseCell (c : Cell) : Cell :=
  match c with
  | Cell.str s =>
    match parseYM s with
    | some m => Cell.date m
    | none => Cell.na
  | Cell.date m => Cell.date m
  | _ => Cell.na

/-- `df["월"] = pd.to_datetime(df["월"], errors="coerce")`. -/
def parsePeriods (df : DataFrame) : DataFrame :=
  match colIdx df "월" with
  | some i => ⟨df.cols, df.rows.map (fun r => r.set i (parseCell (r.getD i Cell.na)))⟩
  | none => df

/-- `True` exactly on missing values (`pd.isna`). -/
def isNaCell : Cell → Bool
  | Cell.na => true
  | _ => false

/-- Sort key of a row: its parsed month, `none` when the period is NaT. -/
def periodKeyAt (i : Nat) (r : List Cell) : Option Nat :=
  match r.getD i Cell.na with
  | Cell.date m => some m
  | _ => none

/-- Order on sort keys: ascending months, missing periods last
(`sort_values` with `na_position="last"`). -/
def keyLE : Option Nat → Option Nat → Bool
  | some a, some b => a ≤ b
  | some _, none => true
  | none, some _ => false
  | none, none => true

/-- Insert a row into a list already ordered by `keyLE` on `k`. -/
def insertRow (k : List Cell → Option Nat) (r : List Cell) :
    List (List Cell) → List (List Cell)
  | [] => [r]
  | s :: rest =>
    if keyLE (k r) (k s) then r :: s :: rest else s :: insertRow k r rest

/-- Sort the rows by `keyLE` on `k` (model of `df.sort_values("월")`). -/
def sortRows (k : List Cell → Option Nat) : List (List Cell) → List (List Cell)
  | [] => []
  | r :: rest => insertRow k r (sortRows k rest)

/-- `df = df.sort_values("월").reset_index(drop=True)`. -/
def sortStep (df : DataFrame) : DataFrame :=
  match colIdx df "월" with
  | some i => ⟨df.cols, sortRows (periodKeyAt i) df.rows⟩
  | none => df

/-- Cell subtraction with NaN propagation. -/
def Cell.sub : Cell → Cell → Cell
  | Cell.num a, Cell.num b => Cell.num (a - b)
  | _, _ => Cell.na

/-- Elementwise difference of two columns (`df["매출액"] - df["전년동월"]`). -/
def subCells (a b : List Cell) : List Cell := List.zipWith Cell.sub a b

/-- Running sum with pandas `cumsum` semantics: missing entries stay
missing and are skipped by the running total. -/
def cumsumGo (acc : Int) : List Cell → List Cell
  | [] => []
  | Cell.num q :: rest => Cell.num (acc + q) :: cumsumGo (acc + q) rest
  | _ :: rest => Cell.na :: cumsumGo acc rest

/-- `df["매출액"].cumsum()`. -/
def cumsumCells (l : List Cell) : List Cell := cumsumGo 0 l

/-- Zero-pad a number to two digits. -/
def pad2 (n : Nat) : String :=
  if n < 10 then "0" ++ toString n else toString n

/-- Zero-pad a number to four digits. -/
def pad4 (n : Nat) : String :=
  if n < 10 then "000" ++ toString n
  else if n < 100 then "00" ++ toString n
  else if n < 1000 then "0" ++ toString n
  else toString n

/-- `strftime("%Y-%m")` on a parsed month number. -/
def fmtYM (m : Nat) : String := pad4 (m / 12) ++ "-" ++ pad2 (m % 12 + 1)

/-- Label of one period cell: `strftime` of a date, NaN for NaT. -/
def labelCell : Cell → Cell
  | Cell.date m => Cell.str (fmtYM m)
  | _ => Cell.na

/-- The derived-column block of the source: `증감액` (delta), `누적매출`
(cumulative revenue) and `월라벨` (period label), in source order. -/
def deriveStep (df : DataFrame) : DataFrame :=
  let d1 := setCol df "증감액" (subCells (getCol df "매출액") (getCol df "전년동월"))
  let d2 := setCol d1 "누적매출" (cumsumCells (getCol d1 "매출액"))
  setCol d2 "월라벨" ((getCol d2 "월").map labelCell)

/-- The fixed text of the period-parse warning (`st.warning`). -/
def warnMsg : String := "일부 월 값이 날짜로 변환되지 않았습니다. (YYYY-MM 권장)"

/-- Result of a successful preparation: the derived table plus the
non-fatal warnings that were emitted. -/
structure Prepared where
  df : DataFrame
  warnings : List String
deriving DecidableEq, Repr

/-- The whole preparation pipeline of the source: rename columns, stop
with the missing canonical names when any required column is absent,
otherwise parse periods (warning when any fails), sort and derive. -/
def prepare (raw : DataFrame) : Except (List String) Prepared :=
  let d0 := normalizeColumns raw
  let missing := missingOf d0.cols
  if missing.isEmpty then
    let d1 := parsePeriods d0
    let ws := if (getCol d1 "월").any isNaCell then [warnMsg] else []
    Except.ok ⟨deriveStep (sortStep d1), ws⟩
  else
    Except.error missing

/-- Sum of the numeric cells (`Series.sum`, which skips NaN). -/
def cellsSum (l : List Cell) : Int :=
  l.foldl (fun acc c => match c with | Cell.num q => acc + q | _ => acc) 0

/-- Number of numeric cells (`Series.count`). -/
def cellsCount (l : List Cell) : Nat :=
  l.countP (fun c => match c with | Cell.num _ => true | _ => false)

/-- `Series.mean`: sum of the non-missing values over their count,
undefined when there are none. -/
def cellsMean (l : List Cell) : Option ℚ :=
  if cellsCount l = 0 then none else some ((cellsSum l : ℚ) / (cellsCount l : ℚ))

/-- `c` is a numeric cell at least as large as every numeric cell of `l`. -/
def isMaxAt (l : List Cell) (c : Cell) : Bool :=
  match c with
  | Cell.num q => l.all (fun c' => match c' with | Cell.num q' => q' ≤ q | _ => true)
  | _ => false

/-- `c` is a numeric cell no larger than any numeric cell of `l`. -/
def isMinAt (l : List Cell) (c : Cell) : Bool :=
  match c with
  | Cell.num q => l.all (fun c' => match c' with | Cell.num q' => q ≤ q' | _ => true)
  | _ => false

/-- `Series.idxmax` after `reset_index`: position of the first cell
attaining the maximum (NaN skipped, ties broken by first occurrence). -/
def idxmaxCells (l : List Cell) : Option Nat := firstIdxWhere (isMaxAt l) l

/-- `Series.idxmin`: position of the first cell attaining the minimum. -/
def idxminCells (l : List Cell) : Option Nat := firstIdxWhere (isMinAt l) l

/-- The four KPI aggregates of the source (lines 111–121). -/
structure KPIs where
  total : Int
  avgYoy : Option ℚ
  maxIdx : Option Nat
  minIdx : Option Nat
deriving DecidableEq, Repr

/-- KPI block: total revenue, mean growth rate, and the positions of the
maximum- and minimum-revenue records. -/
def kpis (df : DataFrame) : KPIs :=
  ⟨cellsSum (getCol df "매출액"), cellsMean (getCol df "증감률"),
   idxmaxCells (getCol df "매출액"), idxminCells (getCol df "매출액")⟩

deriving instance DecidableEq for Except

/-! ### Lemmas about `firstIdxWhere` -/

theorem fiw_cons_true (p : α → Bool) (a : α) (l : List α) (hpa : p a = true) :
    firstIdxWhere p (a :: l) = some 0 := by
  simp [firstIdxWhere, hpa]

theorem fiw_cons_false (p : α → Bool) (a : α) (l : List α) (hpa : p a = false) :
    firstIdxWhere p (a :: l) = (firstIdxWhere p l).map (· + 1) := by
  simp [firstIdxWhere, hpa]

theorem fiw_some_iff (p : α → Bool) (d : α) (l : List α) (i : Nat) :
    firstIdxWhere p l = some i ↔
      i < l.length ∧ p (l.getD i d) = true ∧ ∀ j < i, p (l.getD j d) = false := by
  induction l generalizing i with
  | nil => simp [firstIdxWhere]
  | cons a l ih =>
    cases hpa : p a with
    | true =>
      rw [fiw_cons_true p a l hpa]
      cases i with
      | zero => simp [hpa]
      | succ i =>
        constructor
        · intro hc
          exact absurd (Option.some.inj hc) (by omega)
        · rintro ⟨-, -, hall⟩
          have h0 := hall 0 (Nat.succ_pos _)
          simp [hpa] at h0
    | false =>
      rw [fiw_cons_false p a l hpa]
      cases i with
      | zero =>
        simp [hpa, Option.map_eq_some']
      | succ i =>
        constructor
        · intro hc
          obtain ⟨i', hi', hadd⟩ := Option.map_eq_some'.mp hc
          have hii : i' = i := by omega
          rw [hii] at hi'
          obtain ⟨h1, h2, h3⟩ := (ih i).mp hi'
          refine ⟨by simp; omega, by simpa using h2, ?_⟩
          intro j hj
          cases j with
          | zero => simpa using hpa
          | succ j => simpa using h3 j (by omega)
        · rintro ⟨h1, h2, h3⟩
          have hfi : firstIdxWhere p l = some i := by
            apply (ih i).mpr
            refine ⟨by simp at h1; omega, by simpa using h2, ?_⟩
            intro j hj
            simpa using h3 (j + 1) (by omega)
          rw [hfi]
          rfl

theorem fiw_none_iff (p : α → Bool) (l : List α) :
    firstIdxWhere p l = none ↔ ∀ a ∈ l, p a = false := by
  induction l with
  | nil => simp [firstIdxWhere]
  | cons a l ih =>
    cases hpa : p a with
    | true => simp [firstIdxWhere, hpa]
    | false => simp [firstIdxWhere, hpa, ih]

theorem fiw_isSome_of_mem (p : α → Bool) (l : List α) (a : α)
    (ha : a ∈ l) (hp : p a = true) : (firstIdxWhere p l).isSome := by
  cases h : firstIdxWhere p l with
  | some i => rfl
  | none =>
    have := (fiw_none_iff p l).mp h a ha
    rw [hp] at this
    exact absurd this (by simp)

theorem fiw_append_of_some (p : α → Bool) (l1 l2 : List α) (i : Nat)
    (h : firstIdxWhere p l1 = some i) :
    firstIdxWhere p (l1 ++ l2) = some i := by
  induction l1 generalizing i with
  | nil => simp [firstIdxWhere] at h
  | cons a l ih =>
    rw [List.cons_append]
    cases hpa : p a with
    | true =>
      rw [fiw_cons_true p a l hpa] at h
      rw [fiw_cons_true p _ _ hpa]
      exact h
    | false =>
      rw [fiw_cons_false p a l hpa] at h
      rw [fiw_cons_false p _ _ hpa]
      obtain ⟨i', hi', hadd⟩ := Option.map_eq_some'.mp h
      rw [ih i' hi']
      simpa using hadd

theorem fiw_append_of_none (p : α → Bool) (l1 l2 : List α)
    (h : firstIdxWhere p l1 = none) :
    firstIdxWhere p (l1 ++ l2) = (firstIdxWhere p l2).map (· + l1.length) := by
  induction l1 with
  | nil => simp [firstIdxWhere]
  | cons a l ih =>
    rw [List.cons_append]
    cases hpa : p a with
    | true =>
      rw [fiw_cons_true p a l hpa] at h
      exact absurd h (by simp)
    | false =>
      rw [fiw_cons_false p a l hpa] at h
      rw [fiw_cons_false p _ _ hpa]
      rw [ih (by simpa using h)]
      cases firstIdxWhere p l2 with
      | none => rfl
      | some j =>
        simp only [Option.map_some', Option.some.injEq, List.length_cons]
        omega

/-! ### Lemmas about list access -/

theorem getD_set_eq (l : List β) (i : Nat) (x d : β) (h : i < l.length) :
    (l.set i x).getD i d = x := by
  induction l generalizing i with
  | nil => simp at h
  | cons a l ih =>
    cases i with
    | zero => rfl
    | succ i => simpa using ih i (by simpa using h)

theorem getD_set_ne (l : List β) (i j : Nat) (x d : β) (h : i ≠ j) :
    (l.set i x).getD j d = l.getD j d := by
  induction l generalizing i j with
  | nil => simp
  | cons a l ih =>
    cases i with
    | zero =>
      cases j with
      | zero => exact absurd rfl h
      | succ j => rfl
    | succ i =>
      cases j with
      | zero => rfl
      | succ j => simpa using ih i j (by omega)

theorem getD_append_lt (l1 l2 : List β) (j : Nat) (d : β) (h : j < l1.length) :
    (l1 ++ l2).getD j d = l1.getD j d := by
  induction l1 generalizing j with
  | nil => simp at h
  | cons a l ih =>
    cases j with
    | zero => rfl
    | succ j => simpa using ih j (by simpa using h)

theorem getD_concat_len (l : List β) (x d : β) :
    (l ++ [x]).getD l.length d = x := by
  induction l with
  | nil => rfl
  | cons a l ih => simpa using ih

theorem getD_map_num (rv : List Int) (i : Nat) (h : i < rv.length) :
    (rv.map Cell.num).getD i Cell.na = Cell.num (rv.getD i 0) := by
  induction rv generalizing i with
  | nil => simp at h
  | cons a rv ih =>
    cases i with
    | zero => rfl
    | succ i => simpa using ih i (by simpa using h)

theorem getD_mem_of_lt (l : List β) (i : Nat) (d : β) (h : i < l.length) :
    l.getD i d ∈ l := by
  induction l generalizing i with
  | nil => simp at h
  | cons a l ih =>
    cases i with
    | zero => simp
    | succ i =>
      simp only [List.getD_cons_succ]
      exact List.mem_cons_of_mem a (ih i (by simpa using h))

/-! ### Lemmas about zipped row updates -/

theorem zip_map_eq_map (g : List Cell → Cell → β) (f : List Cell → β) :
    ∀ (rows : List (List Cell)) (v : List Cell), v.length = rows.length →
      (∀ r ∈ rows, ∀ x, g r x = f r) →
      (rows.zip v).map (fun rv => g rv.1 rv.2) = rows.map f := by
  intro rows
  induction rows with
  | nil => intro v _ _; simp
  | cons r rows ih =>
    intro v hv hg
    cases v with
    | nil => simp at hv
    | cons x v =>
      show g r x :: (rows.zip v).map (fun rv => g rv.1 rv.2) = f r :: rows.map f
      rw [hg r (by simp) x, ih v (by simpa using hv) (fun r' hr' => hg r' (by simp [hr']))]

theorem zip_map_eq_snd (g : List Cell → Cell → Cell) :
    ∀ (rows : List (List Cell)) (v : List Cell), v.length = rows.length →
      (∀ r ∈ rows, ∀ x, g r x = x) →
      (rows.zip v).map (fun rv => g rv.1 rv.2) = v := by
  intro rows
  induction rows with
  | nil =>
    intro v hv _
    have hnil : v = [] := List.length_eq_zero.mp hv
    subst hnil
    rfl
  | cons r rows ih =>
    intro v hv hg
    cases v with
    | nil => simp at hv
    | cons x v =>
      show g r x :: (rows.zip v).map (fun rv => g rv.1 rv.2) = x :: v
      rw [hg r (by simp) x, ih v (by simpa using hv) (fun r' hr' => hg r' (by simp [hr']))]

theorem zip_map_length (f : List Cell × Cell → β) (rows : List (List Cell))
    (v : List Cell) (hv : v.length = rows.length) :
    ((rows.zip v).map f).length = rows.length := by
  simp [List.length_zip, hv]

/-! ### Lemmas about `colIdx`, `getCol`, `setCol` -/

theorem colIdx_bound (df : DataFrame) (n : String) (i : Nat)
    (h : colIdx df n = some i) : i < df.cols.length ∧ df.cols.getD i "" = n := by
  obtain ⟨h1, h2, _⟩ := (fiw_some_iff (fun c => c == n) "" df.cols i).mp h
  exact ⟨h1, by simpa using h2⟩

theorem colIdx_isSome_of_mem (df : DataFrame) (n : String) (h : n ∈ df.cols) :
    (colIdx df n).isSome :=
  fiw_isSome_of_mem (fun c => c == n) df.cols n h (by simp)

theorem colIdx_none_iff (df : DataFrame) (n : String) :
    colIdx df n = none ↔ n ∉ df.cols := by
  rw [colIdx, fiw_none_iff]
  constructor
  · intro h hmem
    have := h n hmem
    simp at this
  · intro h c hc
    simp only [beq_eq_false_iff_ne, ne_eq]
    intro hcn
    exact h (hcn ▸ hc)

theorem getCol_length (df : DataFrame) (n : String) (i : Nat)
    (h : colIdx df n = some i) : (getCol df n).length = df.rows.length := by
  simp [getCol, h]

theorem colIdx_congr_cols (df df' : DataFrame) (n : String)
    (h : df'.cols = df.cols) : colIdx df' n = colIdx df n := by
  simp [colIdx, h]

theorem setCol_cols_some (df : DataFrame) (n : String) (v : List Cell) (i : Nat)
    (h : colIdx df n = some i) : (setCol df n v).cols = df.cols := by
  simp [setCol, h]

theorem setCol_cols_none (df : DataFrame) (n : String) (v : List Cell)
    (h : colIdx df n = none) : (setCol df n v).cols = df.cols ++ [n] := by
  simp [setCol, h]

theorem setCol_rows_length (df : DataFrame) (n : String) (v : List Cell)
    (hv : v.length = df.rows.length) :
    (setCol df n v).rows.length = df.rows.length := by
  unfold setCol
  cases h : colIdx df n <;> simp [List.length_zip, hv]

theorem WF_setCol (df : DataFrame) (n : String) (v : List Cell)
    (hWF : WF df) (hv : v.length = df.rows.length) : WF (setCol df n v) := by
  unfold setCol
  cases h : colIdx df n with
  | some i =>
    intro r hr
    simp only [List.mem_map] at hr
    obtain ⟨⟨r', x⟩, hmem, rfl⟩ := hr
    have hr' : r' ∈ df.rows := (List.of_mem_zip hmem).1
    simpa using hWF r' hr'
  | none =>
    intro r hr
    simp only [List.mem_map] at hr
    obtain ⟨⟨r', x⟩, hmem, rfl⟩ := hr
    have hr' : r' ∈ df.rows := (List.of_mem_zip hmem).1
    simpa using hWF r' hr'

theorem colIdx_setCol_self (df : DataFrame) (n : String) (v : List Cell) :
    ∃ i, colIdx (setCol df n v) n = some i := by
  cases h : colIdx df n with
  | some i =>
    refine ⟨i, ?_⟩
    rw [colIdx_congr_cols df (setCol df n v) n (setCol_cols_some df n v i h)]
    exact h
  | none =>
    refine ⟨df.cols.length, ?_⟩
    have hcols := setCol_cols_none df n v h
    unfold colIdx
    rw [hcols, fiw_append_of_none _ _ _ h]
    simp [firstIdxWhere]

theorem colIdx_setCol_mono (df : DataFrame) (n n' : String) (v : List Cell) (j : Nat)
    (h : colIdx df n' = some j) : colIdx (setCol df n v) n' = some j := by
  cases hn : colIdx df n with
  | some i =>
    rw [colIdx_congr_cols df (setCol df n v) n' (setCol_cols_some df n v i hn)]
    exact h
  | none =>
    have hcols := setCol_cols_none df n v hn
    unfold colIdx
    rw [hcols]
    exact fiw_append_of_some _ _ _ j h

theorem getCol_setCol_same (df : DataFrame) (n : String) (v : List Cell)
    (hWF : WF df) (hv : v.length = df.rows.length) :
    getCol (setCol df n v) n = v := by
  cases h : colIdx df n with
  | some i =>
    have hci : colIdx (setCol df n v) n = some i := by
      rw [colIdx_congr_cols df (setCol df n v) n (setCol_cols_some df n v i h)]
      exact h
    have hib := (colIdx_bound df n i h).1
    have hrows : (setCol df n v).rows
        = (df.rows.zip v).map (fun rv => rv.1.set i rv.2) := by
      simp [setCol, h]
    simp only [getCol, hci, hrows, List.map_map]
    exact zip_map_eq_snd (fun r x => (r.set i x).getD i Cell.na) df.rows v hv
      (fun r hr x => getD_set_eq r i x Cell.na (by rw [hWF r hr]; exact hib))
  | none =>
    have hcols := setCol_cols_none df n v h
    have hci : colIdx (setCol df n v) n = some df.cols.length := by
      unfold colIdx
      rw [hcols, fiw_append_of_none _ _ _ h]
      simp [firstIdxWhere]
    have hrows : (setCol df n v).rows
        = (df.rows.zip v).map (fun rv => rv.1 ++ [rv.2]) := by
      simp [setCol, h]
    simp only [getCol, hci, hrows, List.map_map]
    exact zip_map_eq_snd (fun r x => (r ++ [x]).getD df.cols.length Cell.na) df.rows v hv
      (fun r hr x => by rw [← hWF r hr]; exact getD_concat_len r x Cell.na)

theorem getCol_setCol_other (df : DataFrame) (n n' : String) (v : List Cell) (j : Nat)
    (hWF : WF df) (hv : v.length = df.rows.length)
    (hne : n' ≠ n) (h' : colIdx df n' = some j) :
    getCol (setCol df n v) n' = getCol df n' := by
  have hci : colIdx (setCol df n v) n' = some j := colIdx_setCol_mono df n n' v j h'
  have hjb := colIdx_bound df n' j h'
  have hget : getCol df n' = df.rows.map (fun r => r.getD j Cell.na) := by
    simp [getCol, h']
  cases h : colIdx df n with
  | some i =>
    have hib := colIdx_bound df n i h
    have hij : i ≠ j := by
      intro hc
      apply hne
      rw [← hjb.2, ← hc, hib.2]
    have hrows : (setCol df n v).rows
        = (df.rows.zip v).map (fun rv => rv.1.set i rv.2) := by
      simp [setCol, h]
    have hres := zip_map_eq_map (fun r x => (r.set i x).getD j Cell.na)
      (fun r => r.getD j Cell.na) df.rows v hv
      (fun r _ x => getD_set_ne r i j x Cell.na hij)
    simp only [getCol, hci, hrows, List.map_map]
    exact hres.trans hget.symm
  | none =>
    have hrows : (setCol df n v).rows
        = (df.rows.zip v).map (fun rv => rv.1 ++ [rv.2]) := by
      simp [setCol, h]
    have hres := zip_map_eq_map (fun r x => (r ++ [x]).getD j Cell.na)
      (fun r => r.getD j Cell.na) df.rows v hv
      (fun r hr x => getD_append_lt r [x] j Cell.na (by rw [hWF r hr]; exact hjb.1))
    simp only [getCol, hci, hrows, List.map_map]
    exact hres.trans hget.symm

/-! ### Lemmas about `normalizeColumns` and `parsePeriods` -/

theorem normalizeColumns_rows (df : DataFrame) :
    (normalizeColumns df).rows = df.rows := rfl

theorem normalizeColumns_cols_length (df : DataFrame) :
    (normalizeColumns df).cols.length = df.cols.length := by
  simp [normalizeColumns]

theorem WF_normalizeColumns (df : DataFrame) (hWF : WF df) :
    WF (normalizeColumns df) := by
  intro r hr
  rw [normalizeColumns_cols_length]
  exact hWF r hr

theorem parsePeriods_cols (df : DataFrame) : (parsePeriods df).cols = df.cols := by
  unfold parsePeriods
  cases colIdx df "월" <;> rfl

theorem parsePeriods_rows_length (df : DataFrame) :
    (parsePeriods df).rows.length = df.rows.length := by
  unfold parsePeriods
  cases colIdx df "월" <;> simp

theorem WF_parsePeriods (df : DataFrame) (hWF : WF df) : WF (parsePeriods df) := by
  unfold parsePeriods
  cases colIdx df "월" with
  | some i =>
    intro r hr
    simp only [List.mem_map] at hr
    obtain ⟨r', hr', rfl⟩ := hr
    simpa using hWF r' hr'
  | none => exact hWF

theorem colIdx_parsePeriods (df : DataFrame) (n : String) :
    colIdx (parsePeriods df) n = colIdx df n :=
  colIdx_congr_cols df (parsePeriods df) n (parsePeriods_cols df)

theorem getCol_parsePeriods_month (df : DataFrame) (i : Nat)
    (hWF : WF df) (h : colIdx df "월" = some i) :
    getCol (parsePeriods df) "월" = (getCol df "월").map parseCell := by
  have hci : colIdx (parsePeriods df) "월" = some i := by
    rw [colIdx_parsePeriods]; exact h
  have hib := (colIdx_bound df "월" i h).1
  have hrows : (parsePeriods df).rows
      = df.rows.map (fun r => r.set i (parseCell (r.getD i Cell.na))) := by
    simp [parsePeriods, h]
  have heach : ∀ r ∈ df.rows,
      (r.set i (parseCell (r.getD i Cell.na))).getD i Cell.na
        = parseCell (r.getD i Cell.na) := by
    intro r hr
    exact getD_set_eq r i _ Cell.na (by rw [hWF r hr]; exact hib)
  have hget : getCol df "월" = df.rows.map (fun r => r.getD i Cell.na) := by
    simp [getCol, h]
  rw [hget, List.map_map]
  simp only [getCol, hci, hrows, List.map_map]
  refine List.map_congr_left fun r hr => ?_
  simpa using heach r hr

theorem getCol_parsePeriods_other (df : DataFrame) (n : String) (j : Nat)
    (hWF : WF df) (hne : n ≠ "월") (h' : colIdx df n = some j) :
    getCol (parsePeriods df) n = getCol df n := by
  cases h : colIdx df "월" with
  | none =>
    unfold parsePeriods
    rw [h]
  | some i =>
    have hci : colIdx (parsePeriods df) n = some j := by
      rw [colIdx_parsePeriods]; exact h'
    have hib := colIdx_bound df "월" i h
    have hjb := colIdx_bound df n j h'
    have hij : i ≠ j := by
      intro hc
      apply hne
      rw [← hjb.2, ← hc, hib.2]
    have hrows : (parsePeriods df).rows
        = df.rows.map (fun r => r.set i (parseCell (r.getD i Cell.na))) := by
      simp [parsePeriods, h]
    have heach : ∀ r ∈ df.rows,
        (r.set i (parseCell (r.getD i Cell.na))).getD j Cell.na = r.getD j Cell.na :=
      fun r _ => getD_set_ne r i j _ Cell.na hij
    have hget : getCol df n = df.rows.map (fun r => r.getD j Cell.na) := by
      simp [getCol, h']
    simp only [getCol, hci, hrows, List.map_map]
    exact (List.map_congr_left heach).trans hget.symm

/-! ### Lemmas about the sort -/

theorem keyLE_refl (a : Option Nat) : keyLE a a = true := by
  cases a <;> simp [keyLE]

theorem keyLE_total (a b : Option Nat) : keyLE a b = true ∨ keyLE b a = true := by
  cases a <;> cases b <;> simp [keyLE] <;> omega

theorem keyLE_trans (a b c : Option Nat) (hab : keyLE a b = true)
    (hbc : keyLE b c = true) : keyLE a c = true := by
  cases a <;> cases b <;> cases c <;> simp [keyLE] at * <;> omega

theorem insertRow_perm (k : List Cell → Option Nat) (r : List Cell)
    (l : List (List Cell)) : List.Perm (insertRow k r l) (r :: l) := by
  induction l with
  | nil => exact List.Perm.refl _
  | cons s rest ih =>
    by_cases h : keyLE (k r) (k s) = true
    · simp only [insertRow, h, if_true]
      exact List.Perm.refl _
    · simp only [insertRow, h, if_false]
      exact (ih.cons s).trans (List.Perm.swap r s rest)

theorem sortRows_perm (k : List Cell → Option Nat) (l : List (List Cell)) :
    List.Perm (sortRows k l) l := by
  induction l with
  | nil => exact List.Perm.refl _
  | cons r rest ih => exact (insertRow_perm k r _).trans (ih.cons r)

theorem mem_insertRow (k : List Cell → Option Nat) (r x : List Cell)
    (l : List (List Cell)) : x ∈ insertRow k r l ↔ x = r ∨ x ∈ l := by
  rw [(insertRow_perm k r l).mem_iff]
  simp

theorem pairwise_insertRow (k : List Cell → Option Nat) (r : List Cell)
    (l : List (List Cell))
    (hl : l.Pairwise (fun a b => keyLE (k a) (k b) = true)) :
    (insertRow k r l).Pairwise (fun a b => keyLE (k a) (k b) = true) := by
  induction l with
  | nil => simp [insertRow]
  | cons s rest ih =>
    rcases List.pairwise_cons.mp hl with ⟨hs, hrest⟩
    by_cases h : keyLE (k r) (k s) = true
    · simp only [insertRow, h, if_true]
      refine List.pairwise_cons.mpr ⟨?_, hl⟩
      intro b hb
      rcases List.mem_cons.mp hb with rfl | hb
      · exact h
      · exact keyLE_trans _ _ _ h (hs b hb)
    · simp only [insertRow, h, if_false]
      refine List.pairwise_cons.mpr ⟨?_, ih hrest⟩
      intro b hb
      rcases (mem_insertRow k r b rest).mp hb with rfl | hb
      · rcases keyLE_total (k b) (k s) with h1 | h1
        · exact absurd h1 h
        · exact h1
      · exact hs b hb

theorem sortRows_pairwise (k : List Cell → Option Nat) (l : List (List Cell)) :
    (sortRows k l).Pairwise (fun a b => keyLE (k a) (k b) = true) := by
  induction l with
  | nil => simp [sortRows]
  | cons r rest ih => exact pairwise_insertRow k r _ ih

theorem sortRows_none_last (k : List Cell → Option Nat) (l : List (List Cell))
    (i j : Nat) (hij : i < j) (hj : j < (sortRows k l).length)
    (hi : k ((sortRows k l).getD i []) = none) :
    k ((sortRows k l).getD j []) = none := by
  have hp := sortRows_pairwise k l
  rw [List.pairwise_iff_getElem] at hp
  have hij' := hp i j (by omega) hj hij
  have hgi : (sortRows k l).getD i [] = (sortRows k l)[i] := by
    rw [List.getD_eq_getElem?_getD, List.getElem?_eq_getElem (by omega)]
    rfl
  have hgj : (sortRows k l).getD j [] = (sortRows k l)[j] := by
    rw [List.getD_eq_getElem?_getD, List.getElem?_eq_getElem hj]
    rfl
  rw [hgi] at hi
  rw [hgj]
  cases hkj : k (sortRows k l)[j] with
  | none => rfl
  | some m =>
    rw [hi, hkj] at hij'
    simp [keyLE] at hij'

theorem sortStep_cols (df : DataFrame) : (sortStep df).cols = df.cols := by
  unfold sortStep
  cases colIdx df "월" <;> rfl

theorem sortStep_rows_length (df : DataFrame) :
    (sortStep df).rows.length = df.rows.length := by
  unfold sortStep
  cases h : colIdx df "월" with
  | some i => exact (sortRows_perm (periodKeyAt i) df.rows).length_eq
  | none => rfl

theorem WF_sortStep (df : DataFrame) (hWF : WF df) : WF (sortStep df) := by
  unfold sortStep
  cases h : colIdx df "월" with
  | some i =>
    intro r hr
    exact hWF r ((sortRows_perm (periodKeyAt i) df.rows).mem_iff.mp hr)
  | none => exact hWF

theorem colIdx_sortStep (df : DataFrame) (n : String) :
    colIdx (sortStep df) n = colIdx df n :=
  colIdx_congr_cols df (sortStep df) n (sortStep_cols df)

/-! ### Lemmas about the derived computations -/

theorem cumsumGo_length (l : List Cell) : ∀ acc : Int, (cumsumGo acc l).length = l.length := by
  induction l with
  | nil => intro acc; rfl
  | cons c rest ih =>
    intro acc
    cases c <;> simp [cumsumGo, ih]

theorem cumsumCells_length (l : List Cell) : (cumsumCells l).length = l.length :=
  cumsumGo_length l 0

theorem cumsumGo_map_num (rv : List Int) : ∀ (acc : Int) (i : Nat), i < rv.length →
    (cumsumGo acc (rv.map Cell.num)).getD i Cell.na
      = Cell.num (acc + (rv.take (i + 1)).sum) := by
  induction rv with
  | nil => intro acc i h; simp at h
  | cons a rv ih =>
    intro acc i h
    cases i with
    | zero => simp [cumsumGo]
    | succ i =>
      simp only [List.map_cons, cumsumGo, List.getD_cons_succ]
      rw [ih (acc + a) i (by simpa using h)]
      congr 1
      rw [List.take_succ_cons, List.sum_cons]
      ring

theorem cumsumCells_map_num (rv : List Int) (i : Nat) (h : i < rv.length) :
    (cumsumCells (rv.map Cell.num)).getD i Cell.na
      = Cell.num ((rv.take (i + 1)).sum) := by
  rw [cumsumCells, cumsumGo_map_num rv 0 i h, zero_add]

theorem subCells_length (a b : List Cell) :
    (subCells a b).length = min a.length b.length := by
  simp [subCells]

theorem subCells_map_num (rv : List Int) : ∀ (pv : List Int) (i : Nat),
    i < rv.length → i < pv.length →
    (subCells (rv.map Cell.num) (pv.map Cell.num)).getD i Cell.na
      = Cell.num (rv.getD i 0 - pv.getD i 0) := by
  induction rv with
  | nil => intro pv i h _; simp at h
  | cons a rv ih =>
    intro pv i h1 h2
    cases pv with
    | nil => simp at h2
    | cons b pv =>
      cases i with
      | zero => rfl
      | succ i =>
        simp only [List.map_cons, subCells, List.zipWith_cons_cons, List.getD_cons_succ]
        exact ih pv i (by simpa using h1) (by simpa using h2)

theorem cellsSum_foldl (rv : List Int) : ∀ acc : Int,
    (rv.map Cell.num).foldl
      (fun a c => match c with | Cell.num q => a + q | _ => a) acc
      = acc + rv.sum := by
  induction rv with
  | nil => intro acc; simp
  | cons a rv ih =>
    intro acc
    simp only [List.map_cons, List.foldl_cons, List.sum_cons]
    rw [ih (acc + a)]
    ring

theorem cellsSum_map_num (rv : List Int) : cellsSum (rv.map Cell.num) = rv.sum := by
  rw [cellsSum, cellsSum_foldl rv 0, zero_add]

theorem cellsCount_map_num (rv : List Int) : cellsCount (rv.map Cell.num) = rv.length := by
  induction rv with
  | nil => rfl
  | cons a rv ih =>
    unfold cellsCount at ih ⊢
    rw [List.map_cons, List.countP_cons, ih]
    rfl

theorem cellsMean_map_num (rv : List Int) (h : rv ≠ []) :
    cellsMean (rv.map Cell.num) = some ((rv.sum : ℚ) / (rv.length : ℚ)) := by
  have hc : cellsCount (rv.map Cell.num) = rv.length := cellsCount_map_num rv
  have hlen : rv.length ≠ 0 := fun hl => h (List.length_eq_zero.mp hl)
  rw [cellsMean, hc, if_neg hlen, cellsSum_map_num]

theorem exists_max_q (rv : List Int) (h : rv ≠ []) :
    ∃ q ∈ rv, ∀ q' ∈ rv, q' ≤ q := by
  induction rv with
  | nil => exact absurd rfl h
  | cons a rv ih =>
    cases rv with
    | nil =>
      refine ⟨a, by simp, ?_⟩
      intro q' hq'
      simp at hq'
      simp [hq']
    | cons b rest =>
      obtain ⟨q, hq, hmax⟩ := ih (by simp)
      rcases le_total q a with hle | hle
      · refine ⟨a, by simp, ?_⟩
        intro q' hq'
        rcases List.mem_cons.mp hq' with rfl | hq'
        · exact le_refl _
        · exact le_trans (hmax q' hq') hle
      · refine ⟨q, List.mem_cons_of_mem a hq, ?_⟩
        intro q' hq'
        rcases List.mem_cons.mp hq' with rfl | hq'
        · exact hle
        · exact hmax q' hq'

theorem exists_min_q (rv : List Int) (h : rv ≠ []) :
    ∃ q ∈ rv, ∀ q' ∈ rv, q ≤ q' := by
  induction rv with
  | nil => exact absurd rfl h
  | cons a rv ih =>
    cases rv with
    | nil =>
      refine ⟨a, by simp, ?_⟩
      intro q' hq'
      simp at hq'
      simp [hq']
    | cons b rest =>
      obtain ⟨q, hq, hmin⟩ := ih (by simp)
      rcases le_total a q with hle | hle
      · refine ⟨a, by simp, ?_⟩
        intro q' hq'
        rcases List.mem_cons.mp hq' with rfl | hq'
        · exact le_refl _
        · exact le_trans hle (hmin q' hq')
      · refine ⟨q, List.mem_cons_of_mem a hq, ?_⟩
        intro q' hq'
        rcases List.mem_cons.mp hq' with rfl | hq'
        · exact hle
        · exact hmin q' hq'

theorem isMaxAt_map_num (rv : List Int) (q : Int) :
    isMaxAt (rv.map Cell.num) (Cell.num q) = true ↔ ∀ q' ∈ rv, q' ≤ q := by
  simp [isMaxAt, List.all_eq_true]

theorem isMinAt_map_num (rv : List Int) (q : Int) :
    isMinAt (rv.map Cell.num) (Cell.num q) = true ↔ ∀ q' ∈ rv, q ≤ q' := by
  simp [isMinAt, List.all_eq_true]

theorem idxmax_map_num_spec (rv : List Int) (h : rv ≠ []) :
    ∃ i, idxmaxCells (rv.map Cell.num) = some i ∧ i < rv.length ∧
      (∀ j < rv.length, rv.getD j 0 ≤ rv.getD i 0) ∧
      (∀ j < i, rv.getD j 0 < rv.getD i 0) := by
  obtain ⟨q, hq, hmax⟩ := exists_max_q rv h
  have hsome : (idxmaxCells (rv.map Cell.num)).isSome := by
    apply fiw_isSome_of_mem _ _ (Cell.num q) (List.mem_map_of_mem _ hq)
    exact (isMaxAt_map_num rv q).mpr hmax
  obtain ⟨i, hi⟩ := Option.isSome_iff_exists.mp hsome
  obtain ⟨hlen, hp, hfirst⟩ :=
    (fiw_some_iff (isMaxAt (rv.map Cell.num)) Cell.na (rv.map Cell.num) i).mp hi
  rw [List.length_map] at hlen
  rw [getD_map_num rv i hlen] at hp
  have himax : ∀ q' ∈ rv, q' ≤ rv.getD i 0 := (isMaxAt_map_num rv _).mp hp
  refine ⟨i, hi, hlen, ?_, ?_⟩
  · intro j hj
    exact himax _ (getD_mem_of_lt rv j 0 hj)
  · intro j hj
    have hjlen : j < rv.length := lt_trans hj hlen
    have hpj := hfirst j hj
    rw [getD_map_num rv j hjlen] at hpj
    have hnot : ¬ ∀ q' ∈ rv, q' ≤ rv.getD j 0 := by
      intro hc
      rw [(isMaxAt_map_num rv _).mpr hc] at hpj
      exact absurd hpj (by simp)
    push_neg at hnot
    obtain ⟨q', hq', hgt⟩ := hnot
    exact lt_of_lt_of_le hgt (himax q' hq')

theorem idxmin_map_num_spec (rv : List Int) (h : rv ≠ []) :
    ∃ i, idxminCells (rv.map Cell.num) = some i ∧ i < rv.length ∧
      (∀ j < rv.length, rv.getD i 0 ≤ rv.getD j 0) ∧
      (∀ j < i, rv.getD i 0 < rv.getD j 0) := by
  obtain ⟨q, hq, hmin⟩ := exists_min_q rv h
  have hsome : (idxminCells (rv.map Cell.num)).isSome := by
    apply fiw_isSome_of_mem _ _ (Cell.num q) (List.mem_map_of_mem _ hq)
    exact (isMinAt_map_num rv q).mpr hmin
  obtain ⟨i, hi⟩ := Option.isSome_iff_exists.mp hsome
  obtain ⟨hlen, hp, hfirst⟩ :=
    (fiw_some_iff (isMinAt (rv.map Cell.num)) Cell.na (rv.map Cell.num) i).mp hi
  rw [List.length_map] at hlen
  rw [getD_map_num rv i hlen] at hp
  have himin : ∀ q' ∈ rv, rv.getD i 0 ≤ q' := (isMinAt_map_num rv _).mp hp
  refine ⟨i, hi, hlen, ?_, ?_⟩
  · intro j hj
    exact himin _ (getD_mem_of_lt rv j 0 hj)
  · intro j hj
    have hjlen : j < rv.length := lt_trans hj hlen
    have hpj := hfirst j hj
    rw [getD_map_num rv j hjlen] at hpj
    have hnot : ¬ ∀ q' ∈ rv, rv.getD j 0 ≤ q' := by
      intro hc
      rw [(isMinAt_map_num rv _).mpr hc] at hpj
      exact absurd hpj (by simp)
    push_neg at hnot
    obtain ⟨q', hq', hgt⟩ := hnot
    exact lt_of_le_of_lt (himin q' hq') hgt

/-! ### Lemmas about the rename dictionary -/

theorem mem_buildRenameDict (cols : List String) (c s : String) :
    (c, s) ∈ buildRenameDict cols ↔
      ∃ p ∈ colmap, p.1 = s ∧ cols.find? (fun x => p.2.contains (pyStrip x)) = some c := by
  constructor
  · intro h
    obtain ⟨p, hp, hf⟩ := List.mem_filterMap.mp h
    obtain ⟨c₀, hc₀, heq⟩ := Option.map_eq_some'.mp hf
    injection heq with h1 h2
    subst h1
    subst h2
    exact ⟨p, hp, rfl, hc₀⟩
  · rintro ⟨p, hp, rfl, hf⟩
    exact List.mem_filterMap.mpr ⟨p, hp, by rw [hf]; rfl⟩

/-- The four synonym lists of the synonym table are pairwise disjoint. -/
theorem colmap_disjoint : ∀ p ∈ colmap, ∀ q ∈ colmap, p.1 ≠ q.1 →
    ∀ s ∈ p.2, s ∉ q.2 := by decide

theorem buildRenameDict_value_unique (cols : List String) (c s1 s2 : String)
    (h1 : (c, s1) ∈ buildRenameDict cols) (h2 : (c, s2) ∈ buildRenameDict cols) :
    s1 = s2 := by
  obtain ⟨p, hp, hps, hf1⟩ := (mem_buildRenameDict cols c s1).mp h1
  obtain ⟨q, hq, hqs, hf2⟩ := (mem_buildRenameDict cols c s2).mp h2
  by_contra hne
  have hpq : p.1 ≠ q.1 := by rw [hps, hqs]; exact hne
  have hc1 : p.2.contains (pyStrip c) = true := by
    have := List.find?_some hf1
    simpa using this
  have hc2 : q.2.contains (pyStrip c) = true := by
    have := List.find?_some hf2
    simpa using this
  exact colmap_disjoint p hp q hq hpq (pyStrip c) (List.elem_iff.mp hc1)
    (List.elem_iff.mp hc2)

theorem lookup_eq_some_of_mem_unique (l : List (String × String)) (c s : String)
    (hmem : (c, s) ∈ l) (huniq : ∀ s', (c, s') ∈ l → s' = s) :
    l.lookup c = some s := by
  induction l with
  | nil => simp at hmem
  | cons p l ih =>
    obtain ⟨k, v⟩ := p
    by_cases hkc : c = k
    · subst hkc
      have hv : v = s := huniq v (by simp)
      subst hv
      simp [List.lookup]
    · have hmem' : (c, s) ∈ l := by
        rcases List.mem_cons.mp hmem with heq | h
        · injection heq with h1 h2
          exact absurd h1 hkc
        · exact h
      have huniq' : ∀ s', (c, s') ∈ l → s' = s :=
        fun s' h' => huniq s' (List.mem_cons_of_mem _ h')
      have hbeq : (c == k) = false := beq_eq_false_iff_ne.mpr hkc
      simp only [List.lookup, hbeq]
      exact ih hmem' huniq'

theorem lookup_eq_none_of_not_mem (l : List (String × String)) (c : String)
    (h : ∀ s, (c, s) ∉ l) : l.lookup c = none := by
  induction l with
  | nil => rfl
  | cons p l ih =>
    obtain ⟨k, v⟩ := p
    have hkc : c ≠ k := by
      intro hc
      subst hc
      exact h v (by simp)
    have hbeq : (c == k) = false := beq_eq_false_iff_ne.mpr hkc
    simp only [List.lookup, hbeq]
    exact ih (fun s hs => h s (List.mem_cons_of_mem _ hs))

theorem renameMap_eq_of_mem (cols : List String) (c s : String)
    (hmem : (c, s) ∈ buildRenameDict cols) : renameMap cols c = s := by
  rw [renameMap, lookup_eq_some_of_mem_unique (buildRenameDict cols) c s hmem
    (fun s' h' => buildRenameDict_value_unique cols c s' s h' hmem)]
  rfl

theorem renameMap_eq_self (cols : List String) (c : String)
    (hnom : ∀ p ∈ colmap, pyStrip c ∉ p.2) : renameMap cols c = c := by
  rw [renameMap, lookup_eq_none_of_not_mem (buildRenameDict cols) c ?_]
  · rfl
  · intro s hs
    obtain ⟨p, hp, _, hf⟩ := (mem_buildRenameDict cols c s).mp hs
    have hc : p.2.contains (pyStrip c) = true := by
      have := List.find?_some hf
      simpa using this
    exact hnom p hp (List.elem_iff.mp hc)

/-! ### Decomposition of `prepare` and the derived block -/

theorem prepare_ok_parts (raw : DataFrame) (p : Prepared)
    (hok : prepare raw = Except.ok p) :
    missingOf (normalizeColumns raw).cols = [] ∧
    p.df = deriveStep (sortStep (parsePeriods (normalizeColumns raw))) ∧
    p.warnings = (if (getCol (parsePeriods (normalizeColumns raw)) "월").any isNaCell
      then [warnMsg] else []) := by
  simp only [prepare] at hok
  by_cases hm : (missingOf (normalizeColumns raw).cols).isEmpty = true
  · rw [if_pos hm] at hok
    injection hok with hok
    exact ⟨List.isEmpty_iff.mp hm, by rw [← hok], by rw [← hok]⟩
  · rw [if_neg hm] at hok
    exact absurd hok (by simp)

theorem prepare_error_of_missing (raw : DataFrame)
    (hm : missingOf (normalizeColumns raw).cols ≠ []) :
    prepare raw = Except.error (missingOf (normalizeColumns raw).cols) := by
  simp only [prepare]
  rw [if_neg ?_]
  intro hc
  exact hm (List.isEmpty_iff.mp hc)

theorem required_mem_of_missing_nil (cols : List String)
    (h : missingOf cols = []) : ∀ r ∈ required, r ∈ cols := by
  intro r hr
  have hall := List.filter_eq_nil_iff.mp h r hr
  simp only [Bool.not_eq_true, Bool.not_eq_true'] at hall
  exact List.elem_iff.mp (by simp [hall] at hall ⊢; exact hall)

theorem deriveStep_spec (d : DataFrame) (hWF : WF d)
    (iM iR iP iY : Nat)
    (hM : colIdx d "월" = some iM) (hR : colIdx d "매출액" = some iR)
    (hP : colIdx d "전년동월" = some iP) (hY : colIdx d "증감률" = some iY) :
    getCol (deriveStep d) "매출액" = getCol d "매출액" ∧
    getCol (deriveStep d) "전년동월" = getCol d "전년동월" ∧
    getCol (deriveStep d) "증감률" = getCol d "증감률" ∧
    getCol (deriveStep d) "월" = getCol d "월" ∧
    getCol (deriveStep d) "증감액"
      = subCells (getCol d "매출액") (getCol d "전년동월") ∧
    getCol (deriveStep d) "누적매출" = cumsumCells (getCol d "매출액") ∧
    getCol (deriveStep d) "월라벨" = (getCol d "월").map labelCell ∧
    (deriveStep d).rows.length = d.rows.length := by
  have hlR : (getCol d "매출액").length = d.rows.length := getCol_length d _ iR hR
  have hlP : (getCol d "전년동월").length = d.rows.length := getCol_length d _ iP hP
  have hlM : (getCol d "월").length = d.rows.length := getCol_length d _ iM hM
  simp only [deriveStep]
  set v1 := subCells (getCol d "매출액") (getCol d "전년동월") with hv1
  set d1 := setCol d "증감액" v1 with hd1
  set v2 := cumsumCells (getCol d1 "매출액") with hv2
  set d2 := setCol d1 "누적매출" v2 with hd2
  set v3 := (getCol d2 "월").map labelCell with hv3
  set d3 := setCol d2 "월라벨" v3 with hd3
  have hv1len : v1.length = d.rows.length := by
    rw [hv1, subCells_length, hlR, hlP, Nat.min_self]
  have hWF1 : WF d1 := by
    rw [hd1]; exact WF_setCol d _ v1 hWF hv1len
  have hr1 : d1.rows.length = d.rows.length := by
    rw [hd1]; exact setCol_rows_length d _ v1 hv1len
  have hcM1 : colIdx d1 "월" = some iM := by
    rw [hd1]; exact colIdx_setCol_mono d _ _ v1 iM hM
  have hcR1 : colIdx d1 "매출액" = some iR := by
    rw [hd1]; exact colIdx_setCol_mono d _ _ v1 iR hR
  have hcP1 : colIdx d1 "전년동월" = some iP := by
    rw [hd1]; exact colIdx_setCol_mono d _ _ v1 iP hP
  have hcY1 : colIdx d1 "증감률" = some iY := by
    rw [hd1]; exact colIdx_setCol_mono d _ _ v1 iY hY
  have hgR1 : getCol d1 "매출액" = getCol d "매출액" := by
    rw [hd1]; exact getCol_setCol_other d _ _ v1 iR hWF hv1len (by decide) hR
  have hgP1 : getCol d1 "전년동월" = getCol d "전년동월" := by
    rw [hd1]; exact getCol_setCol_other d _ _ v1 iP hWF hv1len (by decide) hP
  have hgY1 : getCol d1 "증감률" = getCol d "증감률" := by
    rw [hd1]; exact getCol_setCol_other d _ _ v1 iY hWF hv1len (by decide) hY
  have hgM1 : getCol d1 "월" = getCol d "월" := by
    rw [hd1]; exact getCol_setCol_other d _ _ v1 iM hWF hv1len (by decide) hM
  have hgD1 : getCol d1 "증감액" = v1 := by
    rw [hd1]; exact getCol_setCol_same d _ v1 hWF hv1len
  obtain ⟨iD, hcD1⟩ : ∃ i, colIdx d1 "증감액" = some i := by
    rw [hd1]; exact colIdx_setCol_self d _ v1
  have hv2' : v2 = cumsumCells (getCol d "매출액") := by rw [hv2, hgR1]
  have hv2len : v2.length = d1.rows.length := by
    rw [hv2, cumsumCells_length, hgR1, hlR, hr1]
  have hWF2 : WF d2 := by
    rw [hd2]; exact WF_setCol d1 _ v2 hWF1 hv2len
  have hr2 : d2.rows.length = d.rows.length := by
    rw [hd2, setCol_rows_length d1 _ v2 hv2len, hr1]
  have hcM2 : colIdx d2 "월" = some iM := by
    rw [hd2]; exact colIdx_setCol_mono d1 _ _ v2 iM hcM1
  have hcR2 : colIdx d2 "매출액" = some iR := by
    rw [hd2]; exact colIdx_setCol_mono d1 _ _ v2 iR hcR1
  have hcP2 : colIdx d2 "전년동월" = some iP := by
    rw [hd2]; exact colIdx_setCol_mono d1 _ _ v2 iP hcP1
  have hcY2 : colIdx d2 "증감률" = some iY := by
    rw [hd2]; exact colIdx_setCol_mono d1 _ _ v2 iY hcY1
  have hcD2 : colIdx d2 "증감액" = some iD := by
    rw [hd2]; exact colIdx_setCol_mono d1 _ _ v2 iD hcD1
  have hgR2 : getCol d2 "매출액" = getCol d "매출액" := by
    rw [hd2, getCol_setCol_other d1 _ _ v2 iR hWF1 hv2len (by decide) hcR1, hgR1]
  have hgP2 : getCol d2 "전년동월" = getCol d "전년동월" := by
    rw [hd2, getCol_setCol_other d1 _ _ v2 iP hWF1 hv2len (by decide) hcP1, hgP1]
  have hgY2 : getCol d2 "증감률" = getCol d "증감률" := by
    rw [hd2, getCol_setCol_other d1 _ _ v2 iY hWF1 hv2len (by decide) hcY1, hgY1]
  have hgM2 : getCol d2 "월" = getCol d "월" := by
    rw [hd2, getCol_setCol_other d1 _ _ v2 iM hWF1 hv2len (by decide) hcM1, hgM1]
  have hgD2 : getCol d2 "증감액" = v1 := by
    rw [hd2, getCol_setCol_other d1 _ _ v2 iD hWF1 hv2len (by decide) hcD1, hgD1]
  have hgC2 : getCol d2 "누적매출" = v2 := by
    rw [hd2]; exact getCol_setCol_same d1 _ v2 hWF1 hv2len
  obtain ⟨iC, hcC2⟩ : ∃ i, colIdx d2 "누적매출" = some i := by
    rw [hd2]; exact colIdx_setCol_self d1 _ v2
  have hv3' : v3 = (getCol d "월").map labelCell := by rw [hv3, hgM2]
  have hv3len : v3.length = d2.rows.length := by
    rw [hv3, List.length_map, hgM2, hlM, hr2]
  have hgR3 : getCol d3 "매출액" = getCol d "매출액" := by
    rw [hd3, getCol_setCol_other d2 _ _ v3 iR hWF2 hv3len (by decide) hcR2, hgR2]
  have hgP3 : getCol d3 "전년동월" = getCol d "전년동월" := by
    rw [hd3, getCol_setCol_other d2 _ _ v3 iP hWF2 hv3len (by decide) hcP2, hgP2]
  have hgY3 : getCol d3 "증감률" = getCol d "증감률" := by
    rw [hd3, getCol_setCol_other d2 _ _ v3 iY hWF2 hv3len (by decide) hcY2, hgY2]
  have hgM3 : getCol d3 "월" = getCol d "월" := by
    rw [hd3, getCol_setCol_other d2 _ _ v3 iM hWF2 hv3len (by decide) hcM2, hgM2]
  have hgD3 : getCol d3 "증감액" = v1 := by
    rw [hd3, getCol_setCol_other d2 _ _ v3 iD hWF2 hv3len (by decide) hcD2, hgD2]
  have hgC3 : getCol d3 "누적매출" = v2 := by
    rw [hd3, getCol_setCol_other d2 _ _ v3 iC hWF2 hv3len (by decide) hcC2, hgC2]
  have hgL3 : getCol d3 "월라벨" = v3 := by
    rw [hd3]; exact getCol_setCol_same d2 _ v3 hWF2 hv3len
  have hr3 : d3.rows.length = d.rows.length := by
    rw [hd3, setCol_rows_length d2 _ v3 hv3len, hr2]
  exact ⟨hgR3, hgP3, hgY3, hgM3, by rw [hgD3, hv1],
    by rw [hgC3, hv2'], by rw [hgL3, hv3'], hr3⟩

/-! ### Remaining glue lemmas -/

theorem contains_iff_mem (l : List String) (a : String) :
    l.contains a = true ↔ a ∈ l := List.elem_iff

/-- The canonical names of the synonym table are pairwise distinct. -/
theorem colmap_fst_inj : ∀ p ∈ colmap, ∀ q ∈ colmap, p.1 = q.1 → p = q := by decide

theorem prepare_stage_facts (raw : DataFrame) (p : Prepared) (hWF : WF raw)
    (hok : prepare raw = Except.ok p) :
    WF (sortStep (parsePeriods (normalizeColumns raw))) ∧
    (∀ r ∈ required,
      (colIdx (sortStep (parsePeriods (normalizeColumns raw))) r).isSome) ∧
    p.df = deriveStep (sortStep (parsePeriods (normalizeColumns raw))) := by
  obtain ⟨hm, hdf, _⟩ := prepare_ok_parts raw p hok
  have hWF0 := WF_normalizeColumns raw hWF
  have hWF1 := WF_parsePeriods _ hWF0
  have hWF2 := WF_sortStep _ hWF1
  refine ⟨hWF2, ?_, hdf⟩
  intro r hr
  have hmem : r ∈ (normalizeColumns raw).cols :=
    required_mem_of_missing_nil _ hm r hr
  apply colIdx_isSome_of_mem
  rw [sortStep_cols, parsePeriods_cols]
  exact hmem

/-! ### Concrete example tables -/

/-- The end-to-end example of the spec (§8), with the English synonym
spellings and whole-number growth values. -/
def demoRaw : DataFrame :=
  ⟨["month", "Revenue", "PY", "YoY"],
   [[Cell.str "2024-01", Cell.num 12000000, Cell.num 10500000, Cell.num 14],
    [Cell.str "2024-02", Cell.num 13500000, Cell.num 11200000, Cell.num 20]]⟩

/-- The prepared output of `demoRaw`. -/
def demoPrep : Prepared := (prepare demoRaw).toOption.getD ⟨⟨[], []⟩, []⟩

/-- Input whose periods arrive out of order (spec §8 sorting example). -/
def sortRaw : DataFrame :=
  ⟨["월", "매출액", "전년동월", "증감률"],
   [[Cell.str "2024-03", Cell.num 3, Cell.num 1, Cell.num 1],
    [Cell.str "2024-01", Cell.num 1, Cell.num 1, Cell.num 1],
    [Cell.str "2024-02", Cell.num 2, Cell.num 1, Cell.num 1]]⟩

/-- Input that resolves only two of the four required fields. -/
def missRaw : DataFrame :=
  ⟨["month", "Revenue"], [[Cell.str "2024-01", Cell.num 1]]⟩

/-- Input with exactly one unparsable period value. -/
def badRaw1 : DataFrame :=
  ⟨["월", "매출액", "전년동월", "증감률"],
   [[Cell.str "not-a-date", Cell.num 1, Cell.num 1, Cell.num 1],
    [Cell.str "2024-01", Cell.num 2, Cell.num 1, Cell.num 1]]⟩

/-- The prepared output of `badRaw1`. -/
def badPrep1 : Prepared := (prepare badRaw1).toOption.getD ⟨⟨[], []⟩, []⟩

/-- Input with exactly two unparsable period values. -/
def badRaw2 : DataFrame :=
  ⟨["월", "매출액", "전년동월", "증감률"],
   [[Cell.str "not-a-date", Cell.num 1, Cell.num 1, Cell.num 1],
    [Cell.str "2024-01", Cell.num 2, Cell.num 1, Cell.num 1],
    [Cell.str "also-bad", Cell.num 3, Cell.num 1, Cell.num 1]]⟩

/-- Number of period values of the renamed table that fail to parse. -/
def unparsableCount (raw : DataFrame) : Nat :=
  ((getCol (normalizeColumns raw) "월").map parseCell).countP isNaCell

/-- The warnings of a preparation result (none on a fatal error). -/
def warningsOf : Except (List String) Prepared → List String
  | Except.ok p => p.warnings
  | Except.error _ => []

/-- A cell that is a parsed date or the NaT sentinel: the only shapes the
period column can hold after the coercing parse. -/
def dateOrNa : Cell → Bool
  | Cell.date _ => true
  | Cell.na => true
  | _ => false

theorem parseCell_dateOrNa (c : Cell) : dateOrNa (parseCell c) = true := by
  cases c with
  | str s =>
    simp only [parseCell]
    cases parseYM s with
    | none => rfl
    | some m => rfl
  | num q => rfl
  | date m => rfl
  | na => rfl

theorem isNaCell_labelCell (c : Cell) (h : dateOrNa c = true) :
    isNaCell (labelCell c) = isNaCell c := by
  cases c with
  | date m => rfl
  | na => rfl
  | str s => simp [dateOrNa] at h
  | num q => simp [dateOrNa] at h

theorem getD_map_cell (f : Cell → Cell) (l : List Cell) (i : Nat)
    (h : i < l.length) :
    (l.map f).getD i Cell.na = f (l.getD i Cell.na) := by
  induction l generalizing i with
  | nil => simp at h
  | cons a l ih =>
    cases i with
    | zero => rfl
    | succ i => simpa using ih i (by simpa using h)

/-- Sorting only permutes the rows, so any column of the sorted frame is a
permutation of the same column before sorting. -/
theorem getCol_sortStep_perm (df : DataFrame) (n : String) :
    List.Perm (getCol (sortStep df) n) (getCol df n) := by
  unfold sortStep
  cases h : colIdx df "월" with
  | none => exact List.Perm.refl _
  | some i =>
    cases hn : colIdx df n with
    | none =>
      have h1 : colIdx (⟨df.cols, sortRows (periodKeyAt i) df.rows⟩ : DataFrame) n
          = none := hn
      simp [getCol, h1, hn]
    | some j =>
      have h1 : colIdx (⟨df.cols, sortRows (periodKeyAt i) df.rows⟩ : DataFrame) n
          = some j := hn
      simp only [getCol, h1, hn]
      exact List.Perm.map _ (sortRows_perm (periodKeyAt i) df.rows)

/-! ### Claim theorems -/

/-- C1: whenever at least one required canonical field cannot be resolved
after renaming, preparation fails with a MissingColumns error whose
payload is exactly the list of absent canonical fields (each listed name
is a required field absent from the renamed table, and every such field
is listed), and no prepared table is produced. -/
theorem missing_columns_fatal (raw : DataFrame)
    (h : missingOf (normalizeColumns raw).cols ≠ []) :
    prepare raw = Except.error (missingOf (normalizeColumns raw).cols) ∧
    (∀ c, c ∈ missingOf (normalizeColumns raw).cols ↔
      c ∈ required ∧ c ∉ (normalizeColumns raw).cols) ∧
    ∀ p : Prepared, prepare raw ≠ Except.ok p := by
  refine ⟨prepare_error_of_missing raw h, ?_, ?_⟩
  · intro c
    rw [missingOf, List.mem_filter]
    constructor
    · rintro ⟨h1, h2⟩
      refine ⟨h1, fun hmem => ?_⟩
      rw [(contains_iff_mem _ _).mpr hmem] at h2
      simp at h2
    · rintro ⟨h1, h2⟩
      refine ⟨h1, ?_⟩
      cases hcc : (normalizeColumns raw).cols.contains c with
      | false => rfl
      | true => exact absurd ((contains_iff_mem _ _).mp hcc) h2
  · intro p hp
    rw [prepare_error_of_missing raw h] at hp
    exact absurd hp (by simp)

theorem missing_columns_fatal_witness :
    prepare missRaw = Except.error (missingOf (normalizeColumns missRaw).cols) ∧
    (∀ c, c ∈ missingOf (normalizeColumns missRaw).cols ↔
      c ∈ required ∧ c ∉ (normalizeColumns missRaw).cols) ∧
    ∀ p : Prepared, prepare missRaw ≠ Except.ok p :=
  missing_columns_fatal missRaw (by decide)

/-- C5: when every required canonical field is matched by some raw column
under the synonym table, the renamed table contains all four canonical
column names and the missing-columns check passes. -/
theorem normalize_produces_canonical (df : DataFrame)
    (h : ∀ p ∈ colmap, ∃ c ∈ df.cols, p.2.contains (pyStrip c) = true) :
    (∀ r ∈ required, r ∈ (normalizeColumns df).cols) ∧
    missingOf (normalizeColumns df).cols = [] := by
  have hmain : ∀ r ∈ required, r ∈ (normalizeColumns df).cols := by
    intro r hr
    have hrm : r ∈ colmap.map Prod.fst := by
      have hmap : colmap.map Prod.fst = required := by decide
      rw [hmap]
      exact hr
    obtain ⟨p, hp, hp1⟩ := List.mem_map.mp hrm
    obtain ⟨c, hc, hpc⟩ := h p hp
    have hfind : (df.cols.find? (fun x => p.2.contains (pyStrip x))).isSome := by
      rw [List.find?_isSome]
      exact ⟨c, hc, hpc⟩
    obtain ⟨c₀, hc₀⟩ := Option.isSome_iff_exists.mp hfind
    have hmemd : (c₀, p.1) ∈ buildRenameDict df.cols :=
      (mem_buildRenameDict df.cols c₀ p.1).mpr ⟨p, hp, rfl, hc₀⟩
    have hrn : renameMap df.cols c₀ = p.1 := renameMap_eq_of_mem df.cols c₀ p.1 hmemd
    have hc₀mem : c₀ ∈ df.cols := List.mem_of_find?_eq_some hc₀
    have hfin : renameMap df.cols c₀ ∈ df.cols.map (renameMap df.cols) :=
      List.mem_map_of_mem _ hc₀mem
    rw [hrn, hp1] at hfin
    exact hfin
  refine ⟨hmain, ?_⟩
  rw [missingOf, List.filter_eq_nil_iff]
  intro r hr
  have hct : (normalizeColumns df).cols.contains r = true :=
    (contains_iff_mem _ _).mpr (hmain r hr)
  simp [hct]
  exact hmain r hr

theorem normalize_produces_canonical_witness :
    (∀ r ∈ required, r ∈ (normalizeColumns demoRaw).cols) ∧
    missingOf (normalizeColumns demoRaw).cols = [] :=
  normalize_produces_canonical demoRaw (by decide)

/-- C6: matching is first-match-wins per canonical field: the first raw
column (in column order) whose trimmed name is in the field's synonym
list is renamed to the canonical name, and any later raw column that also
matches a synonym of the same field keeps its original name. -/
theorem first_match_wins (cols : List String) (std : String) (alts : List String)
    (c0 c' : String)
    (hmem : (std, alts) ∈ colmap)
    (hfind : cols.find? (fun x => alts.contains (pyStrip x)) = some c0)
    (hc' : c' ∈ cols) (hmatch : alts.contains (pyStrip c') = true) (hne : c' ≠ c0) :
    renameMap cols c0 = std ∧ renameMap cols c' = c' := by
  constructor
  · exact renameMap_eq_of_mem cols c0 std
      ((mem_buildRenameDict cols c0 std).mpr ⟨(std, alts), hmem, rfl, hfind⟩)
  · rw [renameMap, lookup_eq_none_of_not_mem _ _ ?_]
    · rfl
    · intro s hs
      obtain ⟨q, hq, hqs, hfq⟩ := (mem_buildRenameDict cols c' s).mp hs
      by_cases hsame : q.1 = std
      · have hqe : q = (std, alts) := colmap_fst_inj q hq (std, alts) hmem hsame
        rw [hqe, hfind] at hfq
        injection hfq with hfq
        exact hne hfq.symm
      · have hq2 : q.2.contains (pyStrip c') = true := by
          simpa using List.find?_some hfq
        exact colmap_disjoint q hq (std, alts) hmem hsame (pyStrip c')
          (List.elem_iff.mp hq2) (List.elem_iff.mp hmatch)

theorem first_match_wins_witness :
    renameMap ["month", "Month"] "month" = "월" ∧
    renameMap ["month", "Month"] "Month" = "Month" :=
  first_match_wins ["month", "Month"] "월" ["월", "month", "Month"]
    "month" "Month" (by decide) (by decide) (by decide) (by decide) (by decide)

/-- C10: renaming only changes column names: the cell rows and the row
count are untouched, the new column list is the renaming image of the old
one, and any raw column whose trimmed name matches no synonym of any
canonical field keeps its original name. -/
theorem normalize_frame (df : DataFrame) (c : String)
    (hc : c ∈ df.cols) (hnom : ∀ p ∈ colmap, pyStrip c ∉ p.2) :
    (normalizeColumns df).cols = df.cols.map (renameMap df.cols) ∧
    renameMap df.cols c = c ∧
    (normalizeColumns df).rows = df.rows ∧
    (normalizeColumns df).rows.length = df.rows.length :=
  ⟨rfl, renameMap_eq_self df.cols c hnom, rfl, rfl⟩

theorem normalize_frame_witness :
    (normalizeColumns ⟨["month", "Revenue", "PY", "YoY", "memo"],
        [[Cell.str "2024-01", Cell.num 1, Cell.num 1, Cell.num 1, Cell.str "x"]]⟩).cols
      = (["month", "Revenue", "PY", "YoY", "memo"] : List String).map
          (renameMap ["month", "Revenue", "PY", "YoY", "memo"]) ∧
    renameMap ["month", "Revenue", "PY", "YoY", "memo"] "memo" = "memo" ∧
    (normalizeColumns ⟨["month", "Revenue", "PY", "YoY", "memo"],
        [[Cell.str "2024-01", Cell.num 1, Cell.num 1, Cell.num 1, Cell.str "x"]]⟩).rows
      = [[Cell.str "2024-01", Cell.num 1, Cell.num 1, Cell.num 1, Cell.str "x"]] ∧
    (normalizeColumns ⟨["month", "Revenue", "PY", "YoY", "memo"],
        [[Cell.str "2024-01", Cell.num 1, Cell.num 1, Cell.num 1, Cell.str "x"]]⟩).rows.length
      = ([[Cell.str "2024-01", Cell.num 1, Cell.num 1, Cell.num 1, Cell.str "x"]] : List (List Cell)).length :=
  normalize_frame ⟨["month", "Revenue", "PY", "YoY", "memo"],
    [[Cell.str "2024-01", Cell.num 1, Cell.num 1, Cell.num 1, Cell.str "x"]]⟩
    "memo" (by decide) (by decide)

/-- C3: the sort orders rows ascending by parsed period (`Pairwise` under the
key order), every record whose period failed to parse is placed after all
records with a parseable period, and on the example periods
["2024-03","2024-01","2024-02"] the output period labels are ascending. -/
theorem sort_ascending_unknown_last :
    (∀ (k : List Cell → Option Nat) (rows : List (List Cell)),
      (sortRows k rows).Pairwise (fun a b => keyLE (k a) (k b) = true)) ∧
    (∀ (k : List Cell → Option Nat) (rows : List (List Cell)) (i j : Nat),
      i < j → j < (sortRows k rows).length →
      k ((sortRows k rows).getD i []) = none →
      k ((sortRows k rows).getD j []) = none) ∧
    (prepare sortRaw).map (fun p => getCol p.df "월라벨")
      = Except.ok [Cell.str "2024-01", Cell.str "2024-02", Cell.str "2024-03"] :=
  ⟨sortRows_pairwise,
   fun k rows i j hij hj hi => sortRows_none_last k rows i j hij hj hi,
   by decide⟩

/-- C2: for every well-formed input accepted by the missing-column check whose
revenue column is numeric, the derived cumulative-revenue value at each
position is the sum of the revenue values at positions 0..i of the prepared
(sorted) order. -/
theorem cumulative_prefix_sum (raw : DataFrame) (p : Prepared) (rv : List Int)
    (hWF : WF raw) (hok : prepare raw = Except.ok p)
    (hrev : getCol p.df "매출액" = rv.map Cell.num) :
    ∀ i < rv.length,
      (getCol p.df "누적매출").getD i Cell.na = Cell.num ((rv.take (i + 1)).sum) := by
  obtain ⟨hWF2, hsome, hdf⟩ := prepare_stage_facts raw p hWF hok
  obtain ⟨iM, hM⟩ := Option.isSome_iff_exists.mp (hsome "월" (by decide))
  obtain ⟨iR, hR⟩ := Option.isSome_iff_exists.mp (hsome "매출액" (by decide))
  obtain ⟨iP, hP⟩ := Option.isSome_iff_exists.mp (hsome "전년동월" (by decide))
  obtain ⟨iY, hY⟩ := Option.isSome_iff_exists.mp (hsome "증감률" (by decide))
  obtain ⟨hgR, _, _, _, _, hgC, _, _⟩ :=
    deriveStep_spec _ hWF2 iM iR iP iY hM hR hP hY
  rw [hdf] at hrev ⊢
  intro i hi
  rw [hgC, ← hgR, hrev]
  exact cumsumCells_map_num rv i hi

theorem cumulative_prefix_sum_witness :
    (getCol demoPrep.df "누적매출").getD 1 Cell.na
      = Cell.num ((([12000000, 13500000] : List Int).take 2).sum) :=
  cumulative_prefix_sum demoRaw demoPrep [12000000, 13500000]
    (by decide) (by decide) (by decide) 1 (by decide)

/-- C4: in the prepared output, the derived delta column equals revenue minus
prior-year revenue at every record. -/
theorem delta_eq_revenue_sub_prior (raw : DataFrame) (p : Prepared)
    (rv pv : List Int)
    (hWF : WF raw) (hok : prepare raw = Except.ok p)
    (hrev : getCol p.df "매출액" = rv.map Cell.num)
    (hpri : getCol p.df "전년동월" = pv.map Cell.num) :
    rv.length = pv.length ∧
    ∀ i < rv.length,
      (getCol p.df "증감액").getD i Cell.na
        = Cell.num (rv.getD i 0 - pv.getD i 0) := by
  obtain ⟨hWF2, hsome, hdf⟩ := prepare_stage_facts raw p hWF hok
  obtain ⟨iM, hM⟩ := Option.isSome_iff_exists.mp (hsome "월" (by decide))
  obtain ⟨iR, hR⟩ := Option.isSome_iff_exists.mp (hsome "매출액" (by decide))
  obtain ⟨iP, hP⟩ := Option.isSome_iff_exists.mp (hsome "전년동월" (by decide))
  obtain ⟨iY, hY⟩ := Option.isSome_iff_exists.mp (hsome "증감률" (by decide))
  obtain ⟨hgR, hgP, _, _, hgD, _, _, _⟩ :=
    deriveStep_spec _ hWF2 iM iR iP iY hM hR hP hY
  rw [hdf] at hrev hpri ⊢
  have hrev' : getCol (sortStep (parsePeriods (normalizeColumns raw))) "매출액"
      = rv.map Cell.num := hgR.symm.trans hrev
  have hpri' : getCol (sortStep (parsePeriods (normalizeColumns raw))) "전년동월"
      = pv.map Cell.num := hgP.symm.trans hpri
  have h1 : (getCol (sortStep (parsePeriods (normalizeColumns raw))) "매출액").length
      = (sortStep (parsePeriods (normalizeColumns raw))).rows.length :=
    getCol_length _ _ iR hR
  have h2 : (getCol (sortStep (parsePeriods (normalizeColumns raw))) "전년동월").length
      = (sortStep (parsePeriods (normalizeColumns raw))).rows.length :=
    getCol_length _ _ iP hP
  rw [hrev', List.length_map] at h1
  rw [hpri', List.length_map] at h2
  have hlen : rv.length = pv.length := h1.trans h2.symm
  refine ⟨hlen, ?_⟩
  intro i hi
  rw [hgD, hrev', hpri']
  exact subCells_map_num rv pv i hi (hlen ▸ hi)

theorem delta_eq_revenue_sub_prior_witness :
    ([12000000, 13500000] : List Int).length = ([10500000, 11200000] : List Int).length ∧
    ∀ i < ([12000000, 13500000] : List Int).length,
      (getCol demoPrep.df "증감액").getD i Cell.na
        = Cell.num (([12000000, 13500000] : List Int).getD i 0
            - ([10500000, 11200000] : List Int).getD i 0) :=
  delta_eq_revenue_sub_prior demoRaw demoPrep [12000000, 13500000] [10500000, 11200000]
    (by decide) (by decide) (by decide) (by decide)

/-- C9: preparation is deterministic and stateless: it is a pure function of
the raw table alone, so running it twice on the same raw input yields
identical results. -/
theorem preparation_deterministic (raw1 raw2 : DataFrame) (h : raw1 = raw2) :
    prepare raw1 = prepare raw2 := by rw [h]

theorem preparation_deterministic_witness :
    prepare demoRaw = prepare demoRaw :=
  preparation_deterministic demoRaw demoRaw rfl

/-- C8: over a prepared table whose revenue and growth columns are numeric,
the KPI total equals the sum of revenue, the mean growth equals the
arithmetic mean of yoy_percent, and the maximum and minimum revenue positions
attain the maximum/minimum with ties broken by first occurrence in the
prepared (sorted) order. -/
theorem kpi_aggregates (raw : DataFrame) (p : Prepared) (rv yv : List Int)
    (hok : prepare raw = Except.ok p)
    (hrev : getCol p.df "매출액" = rv.map Cell.num)
    (hyoy : getCol p.df "증감률" = yv.map Cell.num)
    (hrne : rv ≠ []) (hyne : yv ≠ []) :
    (kpis p.df).total = rv.sum ∧
    (kpis p.df).avgYoy = some ((yv.sum : ℚ) / (yv.length : ℚ)) ∧
    (∃ i, (kpis p.df).maxIdx = some i ∧ i < rv.length ∧
      (∀ j < rv.length, rv.getD j 0 ≤ rv.getD i 0) ∧
      ∀ j < i, rv.getD j 0 < rv.getD i 0) ∧
    (∃ i, (kpis p.df).minIdx = some i ∧ i < rv.length ∧
      (∀ j < rv.length, rv.getD i 0 ≤ rv.getD j 0) ∧
      ∀ j < i, rv.getD i 0 < rv.getD j 0) := by
  have ht : (kpis p.df).total = cellsSum (getCol p.df "매출액") := rfl
  have ha : (kpis p.df).avgYoy = cellsMean (getCol p.df "증감률") := rfl
  have hmx : (kpis p.df).maxIdx = idxmaxCells (getCol p.df "매출액") := rfl
  have hmn : (kpis p.df).minIdx = idxminCells (getCol p.df "매출액") := rfl
  refine ⟨?_, ?_, ?_, ?_⟩
  · rw [ht, hrev]
    exact cellsSum_map_num rv
  · rw [ha, hyoy]
    exact cellsMean_map_num yv hyne
  · rw [hmx, hrev]
    exact idxmax_map_num_spec rv hrne
  · rw [hmn, hrev]
    exact idxmin_map_num_spec rv hrne

theorem kpi_aggregates_witness :
    (kpis demoPrep.df).total = ([12000000, 13500000] : List Int).sum ∧
    (kpis demoPrep.df).avgYoy
      = some (((([14, 20] : List Int).sum : Int) : ℚ) / (([14, 20] : List Int).length : ℚ)) ∧
    (∃ i, (kpis demoPrep.df).maxIdx = some i ∧ i < ([12000000, 13500000] : List Int).length ∧
      (∀ j < ([12000000, 13500000] : List Int).length,
        ([12000000, 13500000] : List Int).getD j 0 ≤ ([12000000, 13500000] : List Int).getD i 0) ∧
      ∀ j < i, ([12000000, 13500000] : List Int).getD j 0 < ([12000000, 13500000] : List Int).getD i 0) ∧
    (∃ i, (kpis demoPrep.df).minIdx = some i ∧ i < ([12000000, 13500000] : List Int).length ∧
      (∀ j < ([12000000, 13500000] : List Int).length,
        ([12000000, 13500000] : List Int).getD i 0 ≤ ([12000000, 13500000] : List Int).getD j 0) ∧
      ∀ j < i, ([12000000, 13500000] : List Int).getD i 0 < ([12000000, 13500000] : List Int).getD j 0) :=
  kpi_aggregates demoRaw demoPrep [12000000, 13500000] [14, 20]
    (by decide) (by decide) (by decide) (by decide) (by decide)

/-- C7 counterexample: the non-fatal period-parse warning does not carry the
count of unparsable values: an input with exactly one unparsable period and
an input with exactly two produce identical warnings (the same fixed
message), so no count N can be read off the warning. -/
theorem period_warning_no_count :
    unparsableCount badRaw1 = 1 ∧ unparsableCount badRaw2 = 2 ∧
    (prepare badRaw1).toOption.isSome = true ∧
    (prepare badRaw2).toOption.isSome = true ∧
    warningsOf (prepare badRaw1) = warningsOf (prepare badRaw2) := by decide

/-- C7 (amended): when preparation succeeds, the fixed-message warning is
emitted exactly when at least one period value fails to parse, no warning is
emitted when all periods parse, and the affected records are retained with
sentinel period/label values rather than dropped: the output row count equals
the input row count, the output period column holds the sentinel at exactly
as many records as there were unparsable period values, and a record's label
cell is the sentinel exactly when its period cell is. -/
theorem period_parse_warning_amended (raw : DataFrame) (p : Prepared)
    (hWF : WF raw) (hok : prepare raw = Except.ok p) :
    (p.warnings = [warnMsg] ↔
      ∃ c ∈ getCol (normalizeColumns raw) "월", isNaCell (parseCell c) = true) ∧
    (p.warnings = [] ↔
      ∀ c ∈ getCol (normalizeColumns raw) "월", isNaCell (parseCell c) = false) ∧
    p.df.rows.length = raw.rows.length ∧
    (getCol p.df "월").countP isNaCell = unparsableCount raw ∧
    ∀ i < p.df.rows.length,
      (isNaCell ((getCol p.df "월라벨").getD i Cell.na) = true ↔
        isNaCell ((getCol p.df "월").getD i Cell.na) = true) := by
  obtain ⟨hm, hdf, hws⟩ := prepare_ok_parts raw p hok
  have hWF0 := WF_normalizeColumns raw hWF
  have hmem : "월" ∈ (normalizeColumns raw).cols :=
    required_mem_of_missing_nil _ hm "월" (by decide)
  obtain ⟨i0, hi0⟩ := Option.isSome_iff_exists.mp
    (colIdx_isSome_of_mem (normalizeColumns raw) "월" hmem)
  have hgp : getCol (parsePeriods (normalizeColumns raw)) "월"
      = (getCol (normalizeColumns raw) "월").map parseCell :=
    getCol_parsePeriods_month _ i0 hWF0 hi0
  rw [hgp] at hws
  obtain ⟨hWF2, hsome, hdf2⟩ := prepare_stage_facts raw p hWF hok
  obtain ⟨iM, hM⟩ := Option.isSome_iff_exists.mp (hsome "월" (by decide))
  obtain ⟨iR, hR⟩ := Option.isSome_iff_exists.mp (hsome "매출액" (by decide))
  obtain ⟨iP, hP⟩ := Option.isSome_iff_exists.mp (hsome "전년동월" (by decide))
  obtain ⟨iY, hY⟩ := Option.isSome_iff_exists.mp (hsome "증감률" (by decide))
  obtain ⟨_, _, _, hgM, _, _, hgL, hr⟩ :=
    deriveStep_spec _ hWF2 iM iR iP iY hM hR hP hY
  have hperm : List.Perm
      (getCol (sortStep (parsePeriods (normalizeColumns raw))) "월")
      (getCol (parsePeriods (normalizeColumns raw)) "월") :=
    getCol_sortStep_perm _ "월"
  have hlen : p.df.rows.length = raw.rows.length := by
    rw [hdf2, hr, sortStep_rows_length, parsePeriods_rows_length]
    rfl
  have hcount : (getCol p.df "월").countP isNaCell = unparsableCount raw := by
    have h1 : getCol p.df "월"
        = getCol (sortStep (parsePeriods (normalizeColumns raw))) "월" := by
      rw [hdf2, hgM]
    rw [h1, hperm.countP_eq isNaCell, hgp]
    rfl
  have hsent : ∀ i < p.df.rows.length,
      (isNaCell ((getCol p.df "월라벨").getD i Cell.na) = true ↔
        isNaCell ((getCol p.df "월").getD i Cell.na) = true) := by
    intro i hi
    rw [hdf2] at hi ⊢
    rw [hgL, hgM]
    have hlenM : (getCol (sortStep (parsePeriods (normalizeColumns raw))) "월").length
        = (sortStep (parsePeriods (normalizeColumns raw))).rows.length :=
      getCol_length _ _ iM hM
    have hi' : i < (getCol (sortStep (parsePeriods (normalizeColumns raw))) "월").length := by
      rw [hlenM]
      rw [hr] at hi
      exact hi
    rw [getD_map_cell labelCell _ i hi']
    have hmemc : (getCol (sortStep (parsePeriods (normalizeColumns raw))) "월").getD i Cell.na
        ∈ getCol (sortStep (parsePeriods (normalizeColumns raw))) "월" :=
      getD_mem_of_lt _ i _ hi'
    have hmem1 := hperm.mem_iff.mp hmemc
    rw [hgp] at hmem1
    obtain ⟨c, _, hc⟩ := List.mem_map.mp hmem1
    rw [isNaCell_labelCell _ (by rw [← hc]; exact parseCell_dateOrNa c)]
  refine ⟨?_, ?_, hlen, hcount, hsent⟩
  · cases hany : ((getCol (normalizeColumns raw) "월").map parseCell).any isNaCell with
    | true =>
      rw [hany] at hws
      simp only [if_true] at hws
      constructor
      · intro _
        obtain ⟨x, hx, hpx⟩ := List.any_eq_true.mp hany
        obtain ⟨c, hc, rfl⟩ := List.mem_map.mp hx
        exact ⟨c, hc, hpx⟩
      · intro _
        simpa using hws
    | false =>
      rw [hany] at hws
      simp only [Bool.false_eq_true, if_false] at hws
      constructor
      · intro hw
        rw [hws] at hw
        exact absurd hw (by decide)
      · rintro ⟨c, hc, hp⟩
        have hfa := List.any_eq_false.mp hany (parseCell c) (List.mem_map_of_mem _ hc)
        exact absurd hp hfa
  · cases hany : ((getCol (normalizeColumns raw) "월").map parseCell).any isNaCell with
    | true =>
      rw [hany] at hws
      simp only [if_true] at hws
      constructor
      · intro hw
        rw [hws] at hw
        exact absurd hw (by decide)
      · intro hall
        obtain ⟨x, hx, hpx⟩ := List.any_eq_true.mp hany
        obtain ⟨c, hc, rfl⟩ := List.mem_map.mp hx
        rw [hall c hc] at hpx
        exact absurd hpx (by decide)
    | false =>
      rw [hany] at hws
      simp only [Bool.false_eq_true, if_false] at hws
      constructor
      · intro _
        intro c hc
        have hfa := List.any_eq_false.mp hany (parseCell c) (List.mem_map_of_mem _ hc)
        simpa using hfa
      · intro _
        simpa using hws

theorem period_parse_warning_amended_witness :
    (badPrep1.warnings = [warnMsg] ↔
      ∃ c ∈ getCol (normalizeColumns badRaw1) "월", isNaCell (parseCell c) = true) ∧
    (badPrep1.warnings = [] ↔
      ∀ c ∈ getCol (normalizeColumns badRaw1) "월", isNaCell (parseCell c) = false) ∧
    badPrep1.df.rows.length = badRaw1.rows.length ∧
    (getCol badPrep1.df "월").countP isNaCell = unparsableCount badRaw1 ∧
    ∀ i < badPrep1.df.rows.length,
      (isNaCell ((getCol badPrep1.df "월라벨").getD i Cell.na) = true ↔
        isNaCell ((getCol badPrep1.df "월").getD i Cell.na) = true) :=
  period_parse_warning_amended badRaw1 badPrep1 (by decide) (by decide)
